import Mathlib

/-!
Verification development for the Pico serial supervisor
(src/serial_reader.py, src/config.py, src/test.py).

Bytes are modelled as natural numbers (each < 256 in practice); byte
strings as `List Nat`.  Decoded text is modelled as Lean `String`.
The float delays of the backoff policy are modelled as rationals,
which is exact for every value the policy produces from the shipped
configuration (all are small dyadic-times-power-of-3/2 values).
-/

/-! ## Configuration constants (src/config.py) -/

/-- INITIAL_BACKOFF = 0.5 (config.py line 15). -/
def INITIAL_BACKOFF : ℚ := 0.5

/-- MAX_BACKOFF = 5.0 (config.py line 16). -/
def MAX_BACKOFF : ℚ := 5.0

/-- DEFAULT_SESSION_MARKER (config.py line 9). -/
def DEFAULT_SESSION_MARKER : String := "::RPI-PICO-LOG::START"

/-! ## Substring test (Python `needle in hay` on str) -/

/-- Boolean test that one character list is a prefix of another. -/
def charsPrefixEq : List Char → List Char → Bool
  | [], _ => true
  | _ :: _, [] => false
  | a :: as, b :: bs => a = b && charsPrefixEq as bs

/-- Boolean substring test on character lists; `charsContains n h` is
Python's `n in h` for strings (true for the empty needle). -/
def charsContains (needle : List Char) : List Char → Bool
  | [] => charsPrefixEq needle []
  | c :: rest => charsPrefixEq needle (c :: rest) || charsContains needle rest

/-- Python's `needle in hay` on strings. -/
def strContains (needle hay : String) : Bool :=
  charsContains needle.toList hay.toList

/-- Python `s.lower()` (per-character ASCII case folding, which is
what the drive labels and mount paths involved use). -/
def strToLower (s : String) : List Char :=
  s.toList.map Char.toLower

/-! ## UTF-8 decoding with replacement
(Python `bytes.decode("utf-8", errors="replace")`, used at
serial_reader.py lines 132 and 179).  Invalid sequences are replaced
by U+FFFD following CPython's maximal-subpart policy; the function is
total, mirroring the fact that the Python call never raises. -/

/-- The replacement character U+FFFD. -/
def replChar : Char := Char.ofNat 0xFFFD

/-- Continuation byte test (0x80 - 0xBF). -/
def isCont (b : Nat) : Bool := 128 ≤ b && b ≤ 191

/-- Lower bound of the first continuation byte after a three-byte lead. -/
def cont3lo (b : Nat) : Nat := if b = 224 then 160 else 128

/-- Upper bound of the first continuation byte after a three-byte lead. -/
def cont3hi (b : Nat) : Nat := if b = 237 then 159 else 191

/-- Lower bound of the first continuation byte after a four-byte lead. -/
def cont4lo (b : Nat) : Nat := if b = 240 then 144 else 128

/-- Upper bound of the first continuation byte after a four-byte lead. -/
def cont4hi (b : Nat) : Nat := if b = 244 then 143 else 191

/-- UTF-8 decoding with U+FFFD replacement for invalid input, as
CPython's decoder with errors="replace" behaves: a truncated valid
prefix is replaced by one U+FFFD, an invalid byte by one U+FFFD. -/
def utf8DecodeReplace : List Nat → List Char
  | [] => []
  | b :: bs =>
    if b < 128 then Char.ofNat b :: utf8DecodeReplace bs
    else if 194 ≤ b ∧ b ≤ 223 then
      match bs with
      | [] => [replChar]
      | b1 :: bs1 =>
        if isCont b1 then
          Char.ofNat ((b - 192) * 64 + (b1 - 128)) :: utf8DecodeReplace bs1
        else replChar :: utf8DecodeReplace (b1 :: bs1)
    else if 224 ≤ b ∧ b ≤ 239 then
      match bs with
      | [] => [replChar]
      | b1 :: bs1 =>
        if cont3lo b ≤ b1 ∧ b1 ≤ cont3hi b then
          match bs1 with
          | [] => [replChar]
          | b2 :: bs2 =>
            if isCont b2 then
              Char.ofNat ((b - 224) * 4096 + (b1 - 128) * 64 + (b2 - 128)) ::
                utf8DecodeReplace bs2
            else replChar :: utf8DecodeReplace (b2 :: bs2)
        else replChar :: utf8DecodeReplace (b1 :: bs1)
    else if 240 ≤ b ∧ b ≤ 244 then
      match bs with
      | [] => [replChar]
      | b1 :: bs1 =>
        if cont4lo b ≤ b1 ∧ b1 ≤ cont4hi b then
          match bs1 with
          | [] => [replChar]
          | b2 :: bs2 =>
            if isCont b2 then
              match bs2 with
              | [] => [replChar]
              | b3 :: bs3 =>
                if isCont b3 then
                  Char.ofNat ((b - 240) * 262144 + (b1 - 128) * 4096 +
                      (b2 - 128) * 64 + (b3 - 128)) :: utf8DecodeReplace bs3
                else replChar :: utf8DecodeReplace (b3 :: bs3)
            else replChar :: utf8DecodeReplace (b2 :: bs2)
        else replChar :: utf8DecodeReplace (b1 :: bs1)
    else replChar :: utf8DecodeReplace bs

/-- Python `raw.decode("utf-8", errors="replace")`. -/
def decodeReplace (bs : List Nat) : String :=
  String.mk (utf8DecodeReplace bs)

/-! ## Line framer (serial_reader.py, _read_loop lines 169-180 and the
identical inner loop of _perform_handshake lines 121-137).

`splitOnLF l` yields the list of raw byte lines extracted by the
repeated `buf.find(b"\n") / del buf[:nl+1]` loop together with the
bytes left in the buffer after the last line feed. -/

/-- Raw line extraction: every prefix up to (and excluding) each line
feed byte 10, plus the trailing remainder holding no line feed. -/
def splitOnLF : List Nat → List (List Nat) × List Nat
  | [] => ([], [])
  | b :: bs =>
    if b = 10 then ([] :: (splitOnLF bs).1, (splitOnLF bs).2)
    else
      match splitOnLF bs with
      | ([], rest) => ([], b :: rest)
      | (l :: ls, rest) => ((b :: l) :: ls, rest)

/-- Python `if raw.endswith(b"\r"): raw = raw[:-1]`
(serial_reader.py lines 177-178). -/
def stripCR (raw : List Nat) : List Nat :=
  if raw.getLast? = some 13 then raw.dropLast else raw

/-- One `feed` of the framer: append the chunk to the pending buffer
(`buf.extend(chunk)`, line 169), extract and decode every complete
line, and keep the remainder buffered (lines 171-180). -/
def framerFeed (buf chunk : List Nat) : List String × List Nat :=
  ((splitOnLF (buf ++ chunk)).1.map fun raw => decodeReplace (stripCR raw),
   (splitOnLF (buf ++ chunk)).2)

/-- Feeding a list of chunks one after the other, accumulating the
produced lines in order. -/
def feedAll (buf : List Nat) : List (List Nat) → List String × List Nat
  | [] => ([], buf)
  | c :: cs =>
    ((framerFeed buf c).1 ++ (feedAll (framerFeed buf c).2 cs).1,
     (feedAll (framerFeed buf c).2 cs).2)

/-- UTF-8 bytes of an ASCII string, used to build concrete test inputs. -/
def asciiBytes (s : String) : List Nat :=
  s.toList.map fun c => c.toNat

/-! ## Handshake (serial_reader.py, _perform_handshake lines 99-139).

The while loop of the handshake is driven here by a script of
iteration observations: each entry gives the state of the stop event
at the loop head and the chunk returned by `ser.read`.  The inner
line-extraction loop (find line feed, strip carriage return, decode,
test the session marker) is `hsScanF`, written with a fuel argument
equal to the buffer length, which is enough fuel because every
extracted line consumes at least the line-feed byte. -/

/-- Split a byte list at its first line-feed byte into the prefix
before it and the remainder after it (Python `nl = buf.find(b"\n")`,
`raw = buf[:nl]`, `del buf[:nl + 1]`). -/
def splitFirstLF : List Nat → Option (List Nat × List Nat)
  | [] => none
  | b :: bs =>
    if b = 10 then some ([], bs)
    else
      match splitFirstLF bs with
      | none => none
      | some (pre, post) => some (b :: pre, post)

/-- Inner handshake loop (lines 124-137): extract complete lines one
by one; a line containing the session marker stops the scan and is
returned; every earlier line is dropped.  Returns
(dropped lines, marker line if found, remaining buffer). -/
def hsScanF (marker : String) : Nat → List Nat → List String × Option String × List Nat
  | 0, buf => ([], none, buf)
  | fuel + 1, buf =>
    match splitFirstLF buf with
    | none => ([], none, buf)
    | some (raw, rest) =>
      if strContains marker (decodeReplace (stripCR raw)) then
        ([], some (decodeReplace (stripCR raw)), rest)
      else
        ((decodeReplace (stripCR raw)) :: (hsScanF marker fuel rest).1,
         (hsScanF marker fuel rest).2.1, (hsScanF marker fuel rest).2.2)

/-- Inner handshake loop with the fuel instantiated to the buffer
length, which suffices (see hsScan_complete). -/
def hsScan (marker : String) (buf : List Nat) : List String × Option String × List Nat :=
  hsScanF marker buf.length buf

/-- Result of one run of the handshake loop. -/
inductive HsResult
  | found (line : String)
  | stopped
  | pending
deriving DecidableEq

/-- Observable outcome of a handshake run: its result, the lines put
on the outbound queue, the lines dropped, the bytes left in the
buffer, and the number of READY messages written. -/
structure HsRun where
  result : HsResult
  queued : List String
  dropped : List String
  finalBuf : List Nat
  readyWrites : Nat
deriving DecidableEq

/-- One observed iteration of the handshake while loop: the stop
event state at the loop head, and the chunk `ser.read` returned. -/
structure HsIter where
  stopSet : Bool
  chunk : List Nat
deriving DecidableEq

/-- The handshake while loop (lines 116-137): while the stop event is
unset and no marker has been seen, write READY, read a chunk, and if
the chunk is nonempty process the buffered lines; the first line
containing the marker is put on the outbound queue and ends the loop.
A script shorter than the loop needs leaves the result pending. -/
def performHandshake (marker : String) : List HsIter → List Nat → HsRun
  | [], buf => ⟨HsResult.pending, [], [], buf, 0⟩
  | it :: rest, buf =>
    if it.stopSet then ⟨HsResult.stopped, [], [], buf, 0⟩
    else if it.chunk = [] then
      { performHandshake marker rest buf with
        readyWrites := (performHandshake marker rest buf).readyWrites + 1 }
    else
      match hsScan marker (buf ++ it.chunk) with
      | (dropped, some line, rem) => ⟨HsResult.found line, [line], dropped, rem, 1⟩
      | (dropped, none, rem) =>
        ⟨(performHandshake marker rest rem).result,
         (performHandshake marker rest rem).queued,
         dropped ++ (performHandshake marker rest rem).dropped,
         (performHandshake marker rest rem).finalBuf,
         (performHandshake marker rest rem).readyWrites + 1⟩

/-! ## Supervisor loop (serial_reader.py, run lines 68-97).

One iteration of the while loop is modelled as a function of the
observations the environment supplies during it (port resolution,
open success, handshake outcome, how the read loop ended) producing
the serial handle events and sleeps of that iteration together with
the updated backoff value. -/

/-- Why `_read_loop` (lines 141-180) returned: the stop event was
set, `ser.read` raised, or an upload request was handled
(`triggerOk` tells whether the 1200 baud bootloader-trigger open at
line 231 succeeded). -/
inductive ReadExit
  | stopped
  | readErr
  | upload (triggerOk : Bool)
deriving DecidableEq

/-- Environment observations of one iteration of the run loop. -/
structure IterInput where
  portFound : Bool
  openOk : Bool
  handshakeOk : Bool
  readExit : ReadExit
deriving DecidableEq

/-- Serial handle operations and sleeps, in iteration order.
openData/closeData are the data connection at the configured baud;
openTrigger/closeTrigger are the momentary 1200 baud bootloader
trigger connection inside _handle_upload. -/
inductive Event
  | sleepRetry
  | openData
  | closeData
  | openTrigger
  | closeTrigger
  | sleepBackoff (d : ℚ)
deriving DecidableEq

/-- Line 97: `backoff = min(MAX_BACKOFF, backoff * 1.5)`. -/
def nextDelay (d : ℚ) : ℚ := min MAX_BACKOFF (d * 1.5)

/-- One iteration of the run loop (lines 72-97):
no port: sleep the retry interval and continue (lines 74-76);
open failure: fall through to the disconnect epilogue, sleeping the
current backoff and growing it (lines 92-97);
open success resets backoff to INITIAL_BACKOFF (line 82); a failed
handshake hits `continue` (line 86), which closes the port and skips
the epilogue; any read-loop exit (stop, read error, or a handled
upload) falls through to the epilogue with the reset backoff.  In the
upload case _handle_upload closed the data port (line 219) and, when
it succeeded, opened and closed the port at 1200 baud (line 231)
before the epilogue runs. -/
def runIter (inp : IterInput) (backoff : ℚ) : List Event × ℚ :=
  if inp.portFound then
    if inp.openOk then
      if inp.handshakeOk then
        match inp.readExit with
        | ReadExit.stopped =>
          ([Event.openData, Event.closeData, Event.sleepBackoff INITIAL_BACKOFF],
           nextDelay INITIAL_BACKOFF)
        | ReadExit.readErr =>
          ([Event.openData, Event.closeData, Event.sleepBackoff INITIAL_BACKOFF],
           nextDelay INITIAL_BACKOFF)
        | ReadExit.upload triggerOk =>
          ([Event.openData, Event.closeData] ++
            (if triggerOk then [Event.openTrigger, Event.closeTrigger] else []) ++
            [Event.sleepBackoff INITIAL_BACKOFF],
           nextDelay INITIAL_BACKOFF)
      else ([Event.openData, Event.closeData], INITIAL_BACKOFF)
    else ([Event.sleepBackoff backoff], nextDelay backoff)
  else ([Event.sleepRetry], backoff)

/-- The event trace of a whole run, one iteration after the other,
threading the backoff value through. -/
def runTrace : List IterInput → ℚ → List Event
  | [], _ => []
  | i :: rest, b => (runIter i b).1 ++ runTrace rest (runIter i b).2

/-- The successive backoff delays slept at consecutive connection
failures: the first failure sleeps INITIAL_BACKOFF (line 70), each
later one the value produced by line 97. -/
def delays : Nat → ℚ
  | 0 => INITIAL_BACKOFF
  | n + 1 => nextDelay (delays n)

/-! ## Serial handle accounting, for the single-handle invariant. -/

/-- Which serial handles are currently open. -/
structure HandleState where
  dataOpen : Bool
  trigOpen : Bool
deriving DecidableEq

/-- Effect of one event on the open handles. -/
def stepHandle (s : HandleState) : Event → HandleState
  | Event.openData => { s with dataOpen := true }
  | Event.closeData => { s with dataOpen := false }
  | Event.openTrigger => { s with trigOpen := true }
  | Event.closeTrigger => { s with trigOpen := false }
  | _ => s

/-- Number of handles open in a handle state. -/
def openCount (s : HandleState) : Nat :=
  (if s.dataOpen then 1 else 0) + (if s.trigOpen then 1 else 0)

/-- Handle state after a list of events. -/
def handleFold (s : HandleState) : List Event → HandleState
  | [] => s
  | e :: es => handleFold (stepHandle s e) es

/-- The largest number of simultaneously open handles at any point
while a list of events runs from a given handle state. -/
def maxOpenFrom (s : HandleState) : List Event → Nat
  | [] => openCount s
  | e :: es => max (openCount s) (maxOpenFrom (stepHandle s e) es)

/-! ## Upload procedure (serial_reader.py, _handle_upload lines
198-276) and its boundary in _read_loop (lines 151-159).

Steps 1-3 (send the UPLOAD command, close the data port, trigger the
bootloader at 1200 baud) ignore their own errors and only touch the
serial handles, which the supervisor trace models; what remains is
the drive wait, the image enumeration and the copy loop, each of
which can also raise an unexpected exception (e.g.
psutil.disk_partitions or glob.glob raising), modelled by the
`driveRaises` / `globRaises` observations. -/

/-- Environment observations of one upload run. -/
structure UploadEnv where
  driveRaises : Bool
  driveFound : Option String
  globRaises : Bool
  files : List String
  copySucceeds : Nat → Nat → Bool

/-- Outcome reported by the upload procedure on a normal return. -/
inductive UploadOutcome
  | driveNotFound
  | noImageFound
  | finished (perFile : List Bool)
deriving DecidableEq

/-- The per-image copy retry loop (lines 254-266): up to `retry`
attempts, succeeding as soon as one attempt succeeds. -/
def copyFile (retry : Nat) (ok : Nat → Bool) : Bool :=
  (List.range retry).any ok

/-- _handle_upload after the bootloader trigger, paired with the
state of upload_event when control returns to _read_loop: the flag is
cleared (false) at lines 241, 248 and 276, but an unexpected
exception escapes as Except.error with the flag still set (true),
to be caught by the `except` at line 155. -/
def handleUpload (retry : Nat) (env : UploadEnv) : Except Unit UploadOutcome × Bool :=
  if env.driveRaises then (Except.error (), true)
  else
    match env.driveFound with
    | none => (Except.ok UploadOutcome.driveNotFound, false)
    | some _ =>
      if env.globRaises then (Except.error (), true)
      else if env.files = [] then (Except.ok UploadOutcome.noImageFound, false)
      else
        (Except.ok (UploadOutcome.finished
          ((List.range env.files.length).map fun i => copyFile retry (env.copySucceeds i))),
         false)

/-! ## Bootloader drive location (serial_reader.py, _find_pico_drive
lines 291-342, non-Windows execution path: on Linux the Windows-only
volume-label block at lines 302-324 is skipped entirely, and the
device / mountpoint substring checks and the removable-media FAT
heuristic run for each partition in enumeration order). -/

/-- One psutil partition record (device, mountpoint, fstype); a
Python None field is modelled by the empty string. -/
structure DiskPartition where
  device : String
  mountpoint : String
  fstype : String
deriving DecidableEq

/-- Lines 327-330: case-insensitive substring match of the label
against the device name or the mount point. -/
def labelMatch (label : String) (p : DiskPartition) : Bool :=
  charsContains (strToLower label) (strToLower p.device) ||
  charsContains (strToLower label) (strToLower p.mountpoint)

/-- Lines 333-338: a partition mounted under a conventional
removable-media root whose filesystem type starts with "fat". -/
def heuristicMatch (p : DiskPartition) : Bool :=
  (decide (p.mountpoint ≠ "") &&
    (strContains "/media" p.mountpoint || strContains "/run/media" p.mountpoint)) &&
  (decide (p.fstype ≠ "") && charsPrefixEq "fat".toList (strToLower p.fstype))

/-- The partition loop of _find_pico_drive: for each partition in
enumeration order, return its mount point on a label match, else on
a heuristic match, else continue. -/
def findPicoDrive (label : String) : List DiskPartition → Option String
  | [] => none
  | p :: rest =>
    if labelMatch label p then some p.mountpoint
    else if heuristicMatch p then some p.mountpoint
    else findPicoDrive label rest

/-- Concrete partition enumerations for the priority counterexample:
a heuristic-only match listed before a label match. -/
def heuristicOnlyPart : DiskPartition := ⟨"/dev/sdb1", "/media/usb0", "fat32"⟩

/-- A partition whose mount point matches the drive label. -/
def labeledPart : DiskPartition := ⟨"/dev/sdc1", "/media/RPI-RP2", "vfat"⟩

/-! ## Lemmas about the line framer -/

theorem splitOnLF_cons_of_fst_nil {b : Nat} {bs : List Nat} (hb : b ≠ 10)
    (h : (splitOnLF bs).1 = []) :
    splitOnLF (b :: bs) = ([], b :: (splitOnLF bs).2) := by
  rcases hbs : splitOnLF bs with ⟨ls, r⟩
  rw [hbs] at h
  subst h
  simp [splitOnLF, hb, hbs]

theorem splitOnLF_cons_of_fst_cons {b : Nat} {bs l : List Nat}
    {ls : List (List Nat)} (hb : b ≠ 10) (h : (splitOnLF bs).1 = l :: ls) :
    splitOnLF (b :: bs) = ((b :: l) :: ls, (splitOnLF bs).2) := by
  rcases hbs : splitOnLF bs with ⟨ls0, r⟩
  rw [hbs] at h
  subst h
  simp [splitOnLF, hb, hbs]

theorem splitOnLF_cons_lf (bs : List Nat) :
    splitOnLF (10 :: bs) = ([] :: (splitOnLF bs).1, (splitOnLF bs).2) := by
  simp [splitOnLF]

/-- The remainder after splitting holds no line-feed byte. -/
theorem splitOnLF_rest_no_lf (l : List Nat) : 10 ∉ (splitOnLF l).2 := by
  induction l with
  | nil => simp [splitOnLF]
  | cons x xs ih =>
    by_cases hx : x = 10
    · subst hx; rw [splitOnLF_cons_lf]; exact ih
    · rcases hxs : splitOnLF xs with ⟨lsx, rx⟩
      rw [hxs] at ih
      cases lsx with
      | nil =>
        rw [splitOnLF_cons_of_fst_nil hx (by rw [hxs]), hxs]
        simp only [List.mem_cons]
        rintro (h10 | h10)
        · exact hx h10.symm
        · exact ih h10
      | cons a as =>
        rw [splitOnLF_cons_of_fst_cons hx (by rw [hxs]), hxs]
        exact ih

/-- No extracted raw line holds a line-feed byte. -/
theorem splitOnLF_lines_no_lf (l : List Nat) :
    ∀ r ∈ (splitOnLF l).1, 10 ∉ r := by
  induction l with
  | nil => simp [splitOnLF]
  | cons x xs ih =>
    by_cases hx : x = 10
    · subst hx
      rw [splitOnLF_cons_lf]
      intro r hr
      rcases List.mem_cons.mp hr with h | h
      · subst h; simp
      · exact ih r h
    · rcases hxs : splitOnLF xs with ⟨lsx, rx⟩
      rw [hxs] at ih
      cases lsx with
      | nil =>
        rw [splitOnLF_cons_of_fst_nil hx (by rw [hxs])]
        simp
      | cons a as =>
        rw [splitOnLF_cons_of_fst_cons hx (by rw [hxs])]
        intro r hr
        rcases List.mem_cons.mp hr with h | h
        · subst h
          simp only [List.mem_cons]
          rintro (h10 | h10)
          · exact hx h10.symm
          · exact ih a (by simp) h10
        · exact ih r (by simp [h])

/-- Reassembling the extracted lines with line feeds and the
remainder gives back the input: nothing is lost or reordered. -/
theorem splitOnLF_reconstruct (l : List Nat) :
    (splitOnLF l).1.foldr (fun r acc => r ++ 10 :: acc) (splitOnLF l).2 = l := by
  induction l with
  | nil => simp [splitOnLF]
  | cons x xs ih =>
    by_cases hx : x = 10
    · subst hx
      rw [splitOnLF_cons_lf]
      simpa using ih
    · rcases hxs : splitOnLF xs with ⟨lsx, rx⟩
      rw [hxs] at ih
      cases lsx with
      | nil =>
        rw [splitOnLF_cons_of_fst_nil hx (by rw [hxs]), hxs]
        simpa using ih
      | cons a as =>
        rw [splitOnLF_cons_of_fst_cons hx (by rw [hxs]), hxs]
        simp only [List.foldr_cons] at ih ⊢
        rw [List.cons_append, ih]

/-- A buffer without a line feed splits into no lines and itself. -/
theorem splitOnLF_of_no_lf {l : List Nat} (h : 10 ∉ l) : splitOnLF l = ([], l) := by
  induction l with
  | nil => simp [splitOnLF]
  | cons x xs ih =>
    have hx : x ≠ 10 := fun hx => h (by simp [hx])
    have hxs : 10 ∉ xs := fun hmem => h (by simp [hmem])
    rw [splitOnLF_cons_of_fst_nil hx (by rw [ih hxs]), ih hxs]

/-- A raw line without a line feed followed by a line feed splits off
as the first extracted line. -/
theorem splitOnLF_line_append {l : List Nat} (t : List Nat) (hl : 10 ∉ l) :
    splitOnLF (l ++ 10 :: t) = (l :: (splitOnLF t).1, (splitOnLF t).2) := by
  induction l with
  | nil => simpa using splitOnLF_cons_lf t
  | cons c l ihl =>
    have hc : c ≠ 10 := fun h => hl (by simp [h])
    have hl2 : 10 ∉ l := fun h => hl (by simp [h])
    rw [List.cons_append,
      splitOnLF_cons_of_fst_cons hc (show (splitOnLF (l ++ 10 :: t)).1 = l :: (splitOnLF t).1 by rw [ihl hl2]),
      ihl hl2]

/-- splitOnLF inverts reassembly of line-feed-free lines. -/
theorem splitOnLF_join (ls : List (List Nat)) (r : List Nat)
    (hls : ∀ l ∈ ls, 10 ∉ l) (hr : 10 ∉ r) :
    splitOnLF (ls.foldr (fun l acc => l ++ 10 :: acc) r) = (ls, r) := by
  induction ls with
  | nil => simpa using splitOnLF_of_no_lf hr
  | cons l ls ih =>
    have h1 : 10 ∉ l := hls l (by simp)
    have h2 : ∀ x ∈ ls, 10 ∉ x := fun x hx => hls x (by simp [hx])
    rw [List.foldr_cons, splitOnLF_line_append _ h1, ih h2]

/-- Appending more bytes after the reassembly base commutes with the
reassembly fold. -/
theorem foldrLF_append_base (la : List (List Nat)) (x b : List Nat) :
    la.foldr (fun r acc => r ++ 10 :: acc) (x ++ b)
      = (la.foldr (fun r acc => r ++ 10 :: acc) x) ++ b := by
  induction la with
  | nil => rfl
  | cons l ls ih => simp [ih]

/-- Splitting a concatenation: the lines of the left part come first,
then the remainder of the left part is prepended to the right part. -/
theorem splitOnLF_append (a b : List Nat) :
    splitOnLF (a ++ b) =
      ((splitOnLF a).1 ++ (splitOnLF ((splitOnLF a).2 ++ b)).1,
       (splitOnLF ((splitOnLF a).2 ++ b)).2) := by
  have key : a ++ b =
      ((splitOnLF a).1 ++ (splitOnLF ((splitOnLF a).2 ++ b)).1).foldr
        (fun r acc => r ++ 10 :: acc) ((splitOnLF ((splitOnLF a).2 ++ b)).2) := by
    rw [List.foldr_append, splitOnLF_reconstruct ((splitOnLF a).2 ++ b),
      foldrLF_append_base, splitOnLF_reconstruct a]
  have h1 : ∀ l ∈ (splitOnLF a).1 ++ (splitOnLF ((splitOnLF a).2 ++ b)).1, 10 ∉ l := by
    intro l hl
    rcases List.mem_append.mp hl with h | h
    · exact splitOnLF_lines_no_lf a l h
    · exact splitOnLF_lines_no_lf _ l h
  rw [key, splitOnLF_join _ _ h1 (splitOnLF_rest_no_lf _)]


/-! ## Lemmas about the backoff policy -/

theorem delays_nonneg (n : Nat) : 0 ≤ delays n := by
  induction n with
  | zero =>
    show (0 : ℚ) ≤ INITIAL_BACKOFF
    norm_num [INITIAL_BACKOFF]
  | succ n ih =>
    show (0 : ℚ) ≤ nextDelay (delays n)
    unfold nextDelay
    have h1 : (0 : ℚ) ≤ MAX_BACKOFF := by norm_num [MAX_BACKOFF]
    have h2 : (0 : ℚ) ≤ delays n * 1.5 := by nlinarith
    exact le_min h1 h2

theorem delays_le_max (n : Nat) : delays n ≤ MAX_BACKOFF := by
  cases n with
  | zero =>
    show INITIAL_BACKOFF ≤ MAX_BACKOFF
    norm_num [INITIAL_BACKOFF, MAX_BACKOFF]
  | succ n =>
    show nextDelay (delays n) ≤ MAX_BACKOFF
    exact min_le_left _ _

theorem delays_mono (n : Nat) : delays n ≤ delays (n + 1) := by
  show delays n ≤ nextDelay (delays n)
  unfold nextDelay
  refine le_min (delays_le_max n) ?_
  nlinarith [delays_nonneg n]

theorem nextDelay_max : nextDelay MAX_BACKOFF = MAX_BACKOFF := by
  unfold nextDelay
  rw [min_eq_left]
  norm_num [MAX_BACKOFF]

theorem delays_six : delays 6 = MAX_BACKOFF := by
  have h0 : delays 0 = 0.5 := rfl
  have h1 : delays 1 = 0.75 := by
    show nextDelay (delays 0) = 0.75
    rw [h0]; unfold nextDelay; rw [min_eq_right] <;> norm_num [MAX_BACKOFF]
  have h2 : delays 2 = 1.125 := by
    show nextDelay (delays 1) = 1.125
    rw [h1]; unfold nextDelay; rw [min_eq_right] <;> norm_num [MAX_BACKOFF]
  have h3 : delays 3 = 1.6875 := by
    show nextDelay (delays 2) = 1.6875
    rw [h2]; unfold nextDelay; rw [min_eq_right] <;> norm_num [MAX_BACKOFF]
  have h4 : delays 4 = 2.53125 := by
    show nextDelay (delays 3) = 2.53125
    rw [h3]; unfold nextDelay; rw [min_eq_right] <;> norm_num [MAX_BACKOFF]
  have h5 : delays 5 = 3.796875 := by
    show nextDelay (delays 4) = 3.796875
    rw [h4]; unfold nextDelay; rw [min_eq_right] <;> norm_num [MAX_BACKOFF]
  show nextDelay (delays 5) = MAX_BACKOFF
  rw [h5]; unfold nextDelay; rw [min_eq_left]; norm_num [MAX_BACKOFF]

theorem delays_stable (n : Nat) (h : 6 ≤ n) : delays n = MAX_BACKOFF := by
  induction n with
  | zero => omega
  | succ n ih =>
    rcases Nat.lt_or_ge n 6 with hn | hn
    · have hn6 : n + 1 = 6 := by omega
      rw [hn6]; exact delays_six
    · show nextDelay (delays n) = MAX_BACKOFF
      rw [ih hn, nextDelay_max]

/-! ## Lemmas about serial handle accounting -/

theorem handleFold_append (s : HandleState) (a b : List Event) :
    handleFold s (a ++ b) = handleFold (handleFold s a) b := by
  induction a generalizing s with
  | nil => rfl
  | cons e es ih => simp [handleFold, ih]

theorem openCount_le_maxOpenFrom (s : HandleState) (l : List Event) :
    openCount s ≤ maxOpenFrom s l := by
  cases l with
  | nil => exact le_refl _
  | cons e es => exact le_max_left _ _

theorem maxOpenFrom_append (s : HandleState) (a b : List Event) :
    maxOpenFrom s (a ++ b) = max (maxOpenFrom s a) (maxOpenFrom (handleFold s a) b) := by
  induction a generalizing s with
  | nil =>
    show maxOpenFrom s b = max (openCount s) (maxOpenFrom s b)
    exact (max_eq_right (openCount_le_maxOpenFrom s b)).symm
  | cons e es ih =>
    show max (openCount s) (maxOpenFrom (stepHandle s e) (es ++ b))
        = max (max (openCount s) (maxOpenFrom (stepHandle s e) es))
            (maxOpenFrom (handleFold (stepHandle s e) es) b)
    rw [ih, max_assoc]

/-- In every branch of one supervisor iteration at most one handle is
ever open, and all handles are closed again when the iteration ends. -/
theorem runIter_handles (inp : IterInput) (b : ℚ) :
    maxOpenFrom ⟨false, false⟩ (runIter inp b).1 ≤ 1 ∧
      handleFold ⟨false, false⟩ (runIter inp b).1 = ⟨false, false⟩ := by
  obtain ⟨pf, oo, hs, rx⟩ := inp
  cases pf <;> cases oo <;> cases hs <;>
    rcases rx with _ | _ | (_ | _) <;>
    exact ⟨by simp [runIter, maxOpenFrom, stepHandle, openCount], rfl⟩

/-! ## Lemmas about the handshake -/

theorem splitFirstLF_length {l pre post : List Nat}
    (h : splitFirstLF l = some (pre, post)) : post.length < l.length := by
  induction l generalizing pre post with
  | nil => simp [splitFirstLF] at h
  | cons b bs ih =>
    by_cases hb : b = 10
    · subst hb
      simp [splitFirstLF] at h
      rw [← h.2]
      simp [Nat.lt_succ_self]
    · simp only [splitFirstLF, if_neg hb] at h
      cases hbs : splitFirstLF bs with
      | none => rw [hbs] at h; simp at h
      | some pq =>
        rw [hbs] at h
        obtain ⟨p0, q0⟩ := pq
        simp at h
        have := ih hbs
        rw [← h.2]
        simp
        omega

/-- Lines dropped by the inner handshake scan never hold the marker,
and a returned line always does. -/
theorem hsScanF_spec (marker : String) (fuel : Nat) (buf : List Nat) :
    (∀ l ∈ (hsScanF marker fuel buf).1, strContains marker l = false) ∧
      (∀ l, (hsScanF marker fuel buf).2.1 = some l → strContains marker l = true) := by
  induction fuel generalizing buf with
  | zero => simp [hsScanF]
  | succ fuel ih =>
    cases hsp : splitFirstLF buf with
    | none => simp [hsScanF, hsp]
    | some pq =>
      obtain ⟨raw, rest⟩ := pq
      by_cases hm : strContains marker (decodeReplace (stripCR raw)) = true
      · refine ⟨?_, ?_⟩
        · intro l hl
          simp [hsScanF, hsp, hm] at hl
        · intro l hl
          simp [hsScanF, hsp, hm] at hl
          rw [← hl]; exact hm
      · have hm2 : strContains marker (decodeReplace (stripCR raw)) = false :=
          Bool.eq_false_iff.mpr hm
        refine ⟨?_, ?_⟩
        · intro l hl
          simp [hsScanF, hsp, hm2] at hl
          rcases hl with h | h
          · rw [h]; exact hm2
          · exact (ih rest).1 l h
        · intro l hl
          simp [hsScanF, hsp, hm2] at hl
          exact (ih rest).2 l hl

/-- The fuel given to the inner handshake scan suffices: when the
scan returns without a marker line, no complete line is left in the
remaining buffer, exactly as with the source's unbounded loop. -/
theorem hsScanF_complete (marker : String) (fuel : Nat) (buf : List Nat)
    (hf : buf.length ≤ fuel) (h : (hsScanF marker fuel buf).2.1 = none) :
    splitFirstLF ((hsScanF marker fuel buf).2.2) = none := by
  induction fuel generalizing buf with
  | zero =>
    have : buf = [] := List.length_eq_zero.mp (Nat.le_zero.mp hf)
    subst this
    simp [hsScanF, splitFirstLF]
  | succ fuel ih =>
    cases hsp : splitFirstLF buf with
    | none => simp [hsScanF, hsp]
    | some pq =>
      obtain ⟨raw, rest⟩ := pq
      by_cases hm : strContains marker (decodeReplace (stripCR raw)) = true
      · simp [hsScanF, hsp, hm] at h
      · have hm2 : strContains marker (decodeReplace (stripCR raw)) = false :=
          Bool.eq_false_iff.mpr hm
        have hlen : rest.length ≤ fuel := by
          have := splitFirstLF_length hsp
          omega
        simp only [hsScanF, hsp, hm2] at h ⊢
        simp only [Bool.false_eq_true, if_false] at h ⊢
        exact ih rest hlen h

/-- Combined behaviour of a handshake run: a found marker line holds
the marker and is the only queued line; when nothing was found
nothing is queued; dropped lines never hold the marker. -/
theorem performHandshake_spec (marker : String) (script : List HsIter) (buf : List Nat) :
    (∀ l, (performHandshake marker script buf).result = HsResult.found l →
        (performHandshake marker script buf).queued = [l] ∧ strContains marker l = true) ∧
      ((∀ l, (performHandshake marker script buf).result ≠ HsResult.found l) →
        (performHandshake marker script buf).queued = []) ∧
      (∀ l ∈ (performHandshake marker script buf).dropped, strContains marker l = false) := by
  induction script generalizing buf with
  | nil => simp [performHandshake]
  | cons it rest ih =>
    by_cases hstop : it.stopSet
    · simp [performHandshake, hstop]
    · by_cases hchunk : it.chunk = []
      · have h := ih buf
        simp only [performHandshake, hstop, hchunk]
        simpa using h
      · cases hscan : hsScan marker (buf ++ it.chunk) with
        | mk dropped mr =>
          obtain ⟨mo, rem⟩ := mr
          have hspec := hsScanF_spec marker (buf ++ it.chunk).length (buf ++ it.chunk)
          rw [show hsScanF marker (buf ++ it.chunk).length (buf ++ it.chunk)
                = (dropped, mo, rem) from hscan] at hspec
          simp only at hspec
          cases mo with
          | some line =>
            have hPH : performHandshake marker (it :: rest) buf
                = ⟨HsResult.found line, [line], dropped, rem, 1⟩ := by
              simp [performHandshake, hstop, hchunk, hscan]
            rw [hPH]
            refine ⟨?_, ?_, ?_⟩
            · intro l hl
              have hline : line = l := HsResult.found.inj hl
              subst hline
              exact ⟨rfl, hspec.2 line rfl⟩
            · intro hnone
              exact absurd rfl (hnone line)
            · intro l hl
              exact hspec.1 l hl
          | none =>
            have hPH : performHandshake marker (it :: rest) buf
                = ⟨(performHandshake marker rest rem).result,
                   (performHandshake marker rest rem).queued,
                   dropped ++ (performHandshake marker rest rem).dropped,
                   (performHandshake marker rest rem).finalBuf,
                   (performHandshake marker rest rem).readyWrites + 1⟩ := by
              simp [performHandshake, hstop, hchunk, hscan]
            rw [hPH]
            obtain ⟨ih1, ih2, ih3⟩ := ih rem
            refine ⟨?_, ?_, ?_⟩
            · intro l hl
              exact ih1 l hl
            · intro hnone
              exact ih2 hnone
            · intro l hl
              rcases List.mem_append.mp hl with hd | hd
              · exact hspec.1 l hd
              · exact ih3 l hd

/-! ## Lemmas about the drive locator -/

/-- The partition loop returns the mount point of the first partition
in enumeration order that matches the label test or, failing that,
the removable-media FAT heuristic. -/
theorem findPicoDrive_eq_find (label : String) (parts : List DiskPartition) :
    findPicoDrive label parts
      = (parts.find? fun p => labelMatch label p || heuristicMatch p).map
          fun p => p.mountpoint := by
  induction parts with
  | nil => rfl
  | cons p rest ih =>
    by_cases h1 : labelMatch label p = true
    · rw [show findPicoDrive label (p :: rest) = some p.mountpoint from by
        simp [findPicoDrive, h1]]
      rw [List.find?_cons_of_pos _ (by simp [h1])]
      rfl
    · by_cases h2 : heuristicMatch p = true
      · rw [show findPicoDrive label (p :: rest) = some p.mountpoint from by
          simp [findPicoDrive, h1, h2]]
        rw [List.find?_cons_of_pos _ (by simp [h2])]
        rfl
      · rw [show findPicoDrive label (p :: rest) = findPicoDrive label rest from by
          simp [findPicoDrive, h1, h2]]
        rw [List.find?_cons_of_neg _ (by simp [h1, h2])]
        exact ih

/-! ## Lemmas about decoding and carriage-return stripping -/

/-- A byte in 0x80 - 0xC1 can never begin a UTF-8 sequence; the
decoder replaces it with the placeholder and continues, it never
fails. -/
theorem utf8DecodeReplace_invalid_byte (b : Nat) (bs : List Nat)
    (h1 : 128 ≤ b) (h2 : b ≤ 193) :
    utf8DecodeReplace (b :: bs) = replChar :: utf8DecodeReplace bs := by
  have c1 : ¬b < 128 := by omega
  have c2 : ¬(194 ≤ b ∧ b ≤ 223) := by omega
  have c3 : ¬(224 ≤ b ∧ b ≤ 239) := by omega
  have c4 : ¬(240 ≤ b ∧ b ≤ 244) := by omega
  rw [utf8DecodeReplace.eq_def]
  dsimp only
  rw [if_neg c1, if_neg c2, if_neg c3, if_neg c4]

/-- Exactly one trailing carriage-return byte is removed. -/
theorem stripCR_append_cr (raw : List Nat) : stripCR (raw ++ [13]) = raw := by
  unfold stripCR
  rw [List.getLast?_concat, if_pos rfl, List.dropLast_concat]

/-! ## Claim theorems -/

/-- C1 counterexample: leaving the Flashing state via a handled
upload, the supervisor's iteration does grow the backoff state (it is
no longer the 5 it entered with) and does sleep a backoff delay, so
the claim that a normal Flashing exit proceeds to port resolution
without applying the backoff delay and without growing the backoff
state is false on the code. -/
theorem C1_counterexample :
    (runIter ⟨true, true, true, ReadExit.upload true⟩ 5).2 ≠ 5 ∧
      Event.sleepBackoff INITIAL_BACKOFF
        ∈ (runIter ⟨true, true, true, ReadExit.upload true⟩ 5).1 := by
  constructor
  · show nextDelay INITIAL_BACKOFF ≠ 5
    unfold nextDelay INITIAL_BACKOFF MAX_BACKOFF
    norm_num [min_def]
  · show Event.sleepBackoff INITIAL_BACKOFF
        ∈ [Event.openData, Event.closeData, Event.openTrigger, Event.closeTrigger,
           Event.sleepBackoff INITIAL_BACKOFF]
    simp

/-- C1 amended: when `_handle_upload` returns, the read loop breaks
and the supervisor falls through the same disconnect epilogue as a
streaming read error: the iteration ends with a sleep of the current
backoff - equal to INITIAL_BACKOFF because backoff was reset when the
port opened - and the backoff state grows one step to
`nextDelay INITIAL_BACKOFF` before port resolution resumes. -/
theorem C1_amended (b : ℚ) (triggerOk : Bool) :
    (runIter ⟨true, true, true, ReadExit.upload triggerOk⟩ b).2
        = nextDelay INITIAL_BACKOFF ∧
      ((runIter ⟨true, true, true, ReadExit.upload triggerOk⟩ b).1).getLast?
        = some (Event.sleepBackoff INITIAL_BACKOFF) ∧
      (runIter ⟨true, true, true, ReadExit.readErr⟩ b).2 = nextDelay INITIAL_BACKOFF := by
  refine ⟨rfl, ?_, rfl⟩
  cases triggerOk <;> rfl

/-- C2: the upload flag is cleared on the drive-not-found,
no-image-found and copy-loop exits of `_handle_upload`, but an
unexpected exception escaping the drive wait leaves the flag set
while the boundary only catches the exception, so the next read loop
re-triggers the upload. -/
theorem C2_upload_flag_clearing :
    handleUpload 3 ⟨true, none, false, [], fun _ _ => false⟩ = (Except.error (), true) ∧
      handleUpload 3 ⟨false, none, false, [], fun _ _ => false⟩
        = (Except.ok UploadOutcome.driveNotFound, false) ∧
      handleUpload 3 ⟨false, some "/media/RPI-RP2", false, [], fun _ _ => false⟩
        = (Except.ok UploadOutcome.noImageFound, false) ∧
      handleUpload 3 ⟨false, some "/media/RPI-RP2", false, ["app.uf2"], fun _ a => decide (a = 1)⟩
        = (Except.ok (UploadOutcome.finished [true]), false) ∧
      handleUpload 3 ⟨false, some "/media/RPI-RP2", false, ["app.uf2"], fun _ _ => false⟩
        = (Except.ok (UploadOutcome.finished [false]), false) :=
  ⟨rfl, rfl, rfl, rfl, rfl⟩

/-- C3 counterexample: an iteration that opens the port but fails the
handshake leaves backoff at INITIAL_BACKOFF, not at the pre-existing
value 5 the claim says stays in force. -/
theorem C3_counterexample :
    (runIter ⟨true, true, false, ReadExit.readErr⟩ 5).2 = INITIAL_BACKOFF ∧
      INITIAL_BACKOFF ≠ 5 := by
  refine ⟨rfl, ?_⟩
  norm_num [INITIAL_BACKOFF]

/-- C3 amended: the backoff delay is reset to its initial value
exactly on a successful port open (entry into the handshake), not on
entry into Streaming: every iteration that opens the port ends with a
backoff derived from the initial value (the initial value itself when
the handshake fails, one growth step of it otherwise), independent of
the pre-existing backoff, while iterations that do not open keep or
grow the pre-existing value. -/
theorem C3_amended (b : ℚ) (oo hs : Bool) (rx : ReadExit) :
    (runIter ⟨true, true, hs, rx⟩ b).2
        = (if hs then nextDelay INITIAL_BACKOFF else INITIAL_BACKOFF) ∧
      (runIter ⟨false, oo, hs, rx⟩ b).2 = b ∧
      (runIter ⟨true, false, hs, rx⟩ b).2 = nextDelay b := by
  refine ⟨?_, rfl, rfl⟩
  cases hs
  · rfl
  · cases rx with
    | stopped => rfl
    | readErr => rfl
    | upload tok => rfl

/-- C4 counterexample: with a heuristic-only FAT removable-media
partition enumerated before a label-matched partition, the locator
returns the heuristic mount point even though a label-matched mount
exists in the same poll, so the claimed enumeration-order-independent
priority label > heuristic is false on the code. -/
theorem C4_counterexample :
    findPicoDrive "RPI-RP2" [heuristicOnlyPart, labeledPart] = some "/media/usb0" ∧
      labelMatch "RPI-RP2" labeledPart = true ∧
      labelMatch "RPI-RP2" heuristicOnlyPart = false ∧
      heuristicMatch heuristicOnlyPart = true ∧
      ("/media/usb0" : String) ≠ "/media/RPI-RP2" := by
  decide

/-- C4 amended: each poll returns the mount point of the first
partition in enumeration order that passes the label test or,
failing that for that same partition, the FAT removable-media
heuristic; a heuristic match is returned only when no label-matched
partition occurs earlier in enumeration order, not in the poll as a
whole. -/
theorem C4_amended (label : String) (parts : List DiskPartition) :
    findPicoDrive label parts
      = (parts.find? fun p => labelMatch label p || heuristicMatch p).map
          fun p => p.mountpoint :=
  findPicoDrive_eq_find label parts

/-- C5: feeding a byte stream to the line framer in arbitrary chunks
produces exactly the lines of feeding it whole, for any buffer state
holding no line feed (as the framer maintains); in particular
"ab\nc" "d\r\n" chunked as "a", "b\nc", "d\r\n" yields "ab", "cd". -/
theorem C5_chunking_invariance :
    (∀ (chunks : List (List Nat)) (buf : List Nat), (10 : Nat) ∉ buf →
        feedAll buf chunks = framerFeed buf chunks.flatten) ∧
      (feedAll [] [[97], [98, 10, 99], [100, 13, 10]]).1 = ["ab", "cd"] := by
  constructor
  · intro chunks
    induction chunks with
    | nil =>
      intro buf hb
      show ([], buf) = framerFeed buf []
      unfold framerFeed
      rw [List.append_nil, splitOnLF_of_no_lf hb]
      exact rfl
    | cons c cs ih =>
      intro buf hb
      show ((framerFeed buf c).1 ++ (feedAll (framerFeed buf c).2 cs).1,
            (feedAll (framerFeed buf c).2 cs).2)
          = framerFeed buf ((c :: cs).flatten)
      have hb2 : (10 : Nat) ∉ (framerFeed buf c).2 := splitOnLF_rest_no_lf _
      rw [ih _ hb2]
      show ((splitOnLF (buf ++ c)).1.map (fun raw => decodeReplace (stripCR raw)) ++
              (splitOnLF ((splitOnLF (buf ++ c)).2 ++ cs.flatten)).1.map
                (fun raw => decodeReplace (stripCR raw)),
            (splitOnLF ((splitOnLF (buf ++ c)).2 ++ cs.flatten)).2)
          = ((splitOnLF (buf ++ (c ++ cs.flatten))).1.map
              (fun raw => decodeReplace (stripCR raw)),
             (splitOnLF (buf ++ (c ++ cs.flatten))).2)
      rw [← List.append_assoc, splitOnLF_append (buf ++ c) cs.flatten]
      simp
  · decide

/-- C5 witness: the framer invariance instantiated at the spec's
chunking example, with the empty starting buffer. -/
theorem C5_witness :
    (10 : Nat) ∉ ([] : List Nat) ∧
      feedAll [] [[97], [98, 10, 99], [100, 13, 10]]
        = framerFeed [] ([[97], [98, 10, 99], [100, 13, 10]] : List (List Nat)).flatten :=
  ⟨by decide, C5_chunking_invariance.1 [[97], [98, 10, 99], [100, 13, 10]] [] (by decide)⟩

/-- C6: one feed of the framer appends the chunk to the pending
bytes, extracts exactly the prefixes up to each line-feed byte (the
extracted raw lines and the remainder hold no line feed and
reassemble to the whole buffer), strips one trailing carriage-return
byte per line, decodes with invalid bytes replaced by the U+FFFD
placeholder without ever failing, and keeps everything after the last
line feed buffered. -/
theorem C6_framer_characterization (buf chunk : List Nat) :
    (framerFeed buf chunk).1
        = (splitOnLF (buf ++ chunk)).1.map (fun raw => decodeReplace (stripCR raw)) ∧
      (framerFeed buf chunk).2 = (splitOnLF (buf ++ chunk)).2 ∧
      (10 : Nat) ∉ (framerFeed buf chunk).2 ∧
      (∀ raw ∈ (splitOnLF (buf ++ chunk)).1, (10 : Nat) ∉ raw) ∧
      (splitOnLF (buf ++ chunk)).1.foldr (fun raw acc => raw ++ 10 :: acc)
          ((splitOnLF (buf ++ chunk)).2) = buf ++ chunk ∧
      (∀ raw : List Nat, stripCR (raw ++ [13]) = raw) ∧
      (∀ (b : Nat) (bs : List Nat), 128 ≤ b → b ≤ 193 →
        utf8DecodeReplace (b :: bs) = replChar :: utf8DecodeReplace bs) :=
  ⟨rfl, rfl, splitOnLF_rest_no_lf _, splitOnLF_lines_no_lf _, splitOnLF_reconstruct _,
   stripCR_append_cr, utf8DecodeReplace_invalid_byte⟩

/-- C6 witness: the characterization instantiated at a concrete feed
holding a carriage return, an invalid byte and a partial trailing
line, plus the invalid-byte replacement at byte 128. -/
theorem C6_witness :
    (10 : Nat) ∉ ([99, 255, 13] : List Nat) ∧
      utf8DecodeReplace [128, 97] = replChar :: utf8DecodeReplace [97] :=
  ⟨(C6_framer_characterization [99] [255, 13, 10, 100]).2.2.2.1 [99, 255, 13] (by decide),
   (C6_framer_characterization [] []).2.2.2.2.2.2 128 [97] (by decide) (by decide)⟩

/-- C7: the handshake loop ends successfully exactly on a decoded
line containing the configured start marker as a substring, emits
that line to the outbound sink, and under a stop signal (or while
still pending) emits nothing and writes no further READY message;
every line the loop examined without finding the marker lacks the
marker. -/
theorem C7_handshake_marker_matching (marker : String) (script : List HsIter)
    (buf : List Nat) :
    (∀ l, (performHandshake marker script buf).result = HsResult.found l →
        strContains marker l = true ∧ (performHandshake marker script buf).queued = [l]) ∧
      ((performHandshake marker script buf).result = HsResult.stopped →
        (performHandshake marker script buf).queued = []) ∧
      ((performHandshake marker script buf).result = HsResult.pending →
        (performHandshake marker script buf).queued = []) ∧
      (∀ l ∈ (performHandshake marker script buf).dropped, strContains marker l = false) ∧
      (∀ (c : List Nat) (rest : List HsIter),
        performHandshake marker ({ stopSet := true, chunk := c } :: rest) buf
          = ⟨HsResult.stopped, [], [], buf, 0⟩) := by
  obtain ⟨h1, h2, h3⟩ := performHandshake_spec marker script buf
  refine ⟨?_, ?_, ?_, h3, ?_⟩
  · intro l hl
    exact ⟨(h1 l hl).2, (h1 l hl).1⟩
  · intro hres
    exact h2 fun l hl => by rw [hres] at hl; exact HsResult.noConfusion hl
  · intro hres
    exact h2 fun l hl => by rw [hres] at hl; exact HsResult.noConfusion hl
  · intro c rest
    rfl

/-- C7 witness: the spec's example line is recognized through the
substring test and queued, with marker and line not equal. -/
theorem C7_witness :
    strContains DEFAULT_SESSION_MARKER "noise::RPI-PICO-LOG::STARTtrailing" = true ∧
      (performHandshake DEFAULT_SESSION_MARKER
          [⟨false, asciiBytes "noise::RPI-PICO-LOG::STARTtrailing\n"⟩] []).queued
        = ["noise::RPI-PICO-LOG::STARTtrailing"] :=
  (C7_handshake_marker_matching DEFAULT_SESSION_MARKER
      [⟨false, asciiBytes "noise::RPI-PICO-LOG::STARTtrailing\n"⟩] []).1
    "noise::RPI-PICO-LOG::STARTtrailing" (by decide)

/-- C8: the backoff update is min(max, current * 1.5); from the
configured initial 0.5 the successive failure delays are 0.5, 0.75,
1.125, 1.6875, ..., non-decreasing, reaching 5.0 at the seventh
failure and staying 5.0 afterwards. -/
theorem C8_backoff_policy :
    (∀ d : ℚ, nextDelay d = min MAX_BACKOFF (d * 1.5)) ∧
      delays 0 = 0.5 ∧ delays 1 = 0.75 ∧ delays 2 = 1.125 ∧ delays 3 = 1.6875 ∧
      (∀ n, delays n ≤ delays (n + 1)) ∧
      delays 6 = 5 ∧ (∀ n, 6 ≤ n → delays n = 5) := by
  have h1 : delays 1 = 0.75 := by
    show nextDelay (delays 0) = 0.75
    show min MAX_BACKOFF (INITIAL_BACKOFF * 1.5) = 0.75
    rw [min_eq_right] <;> norm_num [MAX_BACKOFF, INITIAL_BACKOFF]
  have h2 : delays 2 = 1.125 := by
    show nextDelay (delays 1) = 1.125
    rw [h1]
    show min MAX_BACKOFF ((0.75 : ℚ) * 1.5) = 1.125
    rw [min_eq_right] <;> norm_num [MAX_BACKOFF]
  have h3 : delays 3 = 1.6875 := by
    show nextDelay (delays 2) = 1.6875
    rw [h2]
    show min MAX_BACKOFF ((1.125 : ℚ) * 1.5) = 1.6875
    rw [min_eq_right] <;> norm_num [MAX_BACKOFF]
  refine ⟨fun d => rfl, rfl, h1, h2, h3, delays_mono, ?_, ?_⟩
  · rw [delays_six]; norm_num [MAX_BACKOFF]
  · intro n hn
    rw [delays_stable n hn]; norm_num [MAX_BACKOFF]

/-- C8 witness: the stable cap instantiated at the eighth delay. -/
theorem C8_witness : delays 8 = 5 :=
  C8_backoff_policy.2.2.2.2.2.2.2 8 (by norm_num)

/-- C9: along any whole run of the supervisor - any iteration
script, any starting backoff - at most one serial handle is open at
every point of the event trace and all handles are closed at its
end; within an upload iteration the data connection is closed before
the 1200 baud trigger handle opens, as the explicit upload-iteration
trace shows. -/
theorem C9_single_handle_invariant :
    (∀ (script : List IterInput) (b : ℚ),
        maxOpenFrom ⟨false, false⟩ (runTrace script b) ≤ 1 ∧
          handleFold ⟨false, false⟩ (runTrace script b) = ⟨false, false⟩) ∧
      (∀ b : ℚ,
        (runIter ⟨true, true, true, ReadExit.upload true⟩ b).1
          = [Event.openData, Event.closeData, Event.openTrigger, Event.closeTrigger,
             Event.sleepBackoff INITIAL_BACKOFF]) := by
  constructor
  · intro script
    induction script with
    | nil =>
      intro b
      exact ⟨by simp [runTrace, maxOpenFrom, openCount], rfl⟩
    | cons i rest ih =>
      intro b
      constructor
      · show maxOpenFrom ⟨false, false⟩
            ((runIter i b).1 ++ runTrace rest (runIter i b).2) ≤ 1
        rw [maxOpenFrom_append, (runIter_handles i b).2]
        exact max_le (runIter_handles i b).1 (ih _).1
      · show handleFold ⟨false, false⟩
            ((runIter i b).1 ++ runTrace rest (runIter i b).2) = ⟨false, false⟩
        rw [handleFold_append, (runIter_handles i b).2]
        exact (ih _).2
  · intro b
    rfl

/-- C10: during the handshake only marker-containing lines are ever
queued (all non-marker lines are discarded), at most one line - the
first marker line - is delivered, and the complete lines still
buffered when the handshake ends form a prefix of what the streaming
read loop delivers on its next feed, so they are not dropped. -/
theorem C10_handshake_discard (marker : String) (script : List HsIter) (buf : List Nat) :
    (∀ l ∈ (performHandshake marker script buf).queued, strContains marker l = true) ∧
      (performHandshake marker script buf).queued.length ≤ 1 ∧
      (∀ chunk : List Nat, ∃ t : List String,
        (framerFeed (performHandshake marker script buf).finalBuf chunk).1
          = ((splitOnLF ((performHandshake marker script buf).finalBuf)).1.map
              fun raw => decodeReplace (stripCR raw)) ++ t) := by
  obtain ⟨h1, h2, h3⟩ := performHandshake_spec marker script buf
  refine ⟨?_, ?_, ?_⟩
  · intro l hl
    rcases hres : (performHandshake marker script buf).result with l0 | _ | _
    · obtain ⟨hq, hc⟩ := h1 l0 hres
      rw [hq] at hl
      rw [List.mem_singleton.mp hl]
      exact hc
    · rw [h2 fun l2 hl2 => by rw [hres] at hl2; exact HsResult.noConfusion hl2] at hl
      exact absurd hl (List.not_mem_nil l)
    · rw [h2 fun l2 hl2 => by rw [hres] at hl2; exact HsResult.noConfusion hl2] at hl
      exact absurd hl (List.not_mem_nil l)
  · rcases hres : (performHandshake marker script buf).result with l0 | _ | _
    · rw [(h1 l0 hres).1]
      exact le_refl 1
    · rw [h2 fun l2 hl2 => by rw [hres] at hl2; exact HsResult.noConfusion hl2]
      exact Nat.zero_le 1
    · rw [h2 fun l2 hl2 => by rw [hres] at hl2; exact HsResult.noConfusion hl2]
      exact Nat.zero_le 1
  · intro chunk
    refine ⟨(splitOnLF ((splitOnLF ((performHandshake marker script buf).finalBuf)).2
        ++ chunk)).1.map fun raw => decodeReplace (stripCR raw), ?_⟩
    show (splitOnLF ((performHandshake marker script buf).finalBuf ++ chunk)).1.map
        (fun raw => decodeReplace (stripCR raw)) = _
    rw [splitOnLF_append ((performHandshake marker script buf).finalBuf) chunk]
    exact List.map_append _ _ _

/-- C10 witness: in a handshake feed carrying a junk line, a marker
line and a buffered leftover, the queued marker line holds the
marker. -/
theorem C10_witness :
    strContains DEFAULT_SESSION_MARKER "x::RPI-PICO-LOG::STARTy" = true :=
  (C10_handshake_discard DEFAULT_SESSION_MARKER
      [⟨false, asciiBytes "junk\nx::RPI-PICO-LOG::STARTy\nleft"⟩] []).1
    "x::RPI-PICO-LOG::STARTy" (by decide)
